import Mathlib

/-!
Verification development for the file-inventory and trend-analysis pipeline
(cm.py and lista.py).  Pure fragments of the Python source are embedded as
executable Lean definitions: Python floats are modelled as rationals,
Python strings as Lean strings or lists of characters, pandas data frames
as lists of typed rows, and the cooperative cancellation event as a count
of polls after which the signal is observed.  Python round(x, 2) is
modelled as rounding 100*x to the nearest integer (half up) over the
rationals.
-/

/-! ### Trend classifier (clasificar_tendencia and the surrounding
percentage computation of worker_procesar, cm.py lines 57-86 and 923-948) -/

/-- Rounding to two decimals, the model of Python round(x, 2). -/
def round2 (x : ℚ) : ℚ := ((round (100 * x) : ℤ) : ℚ) / 100

/-- The below-threshold test of clasificar_tendencia: a value participates
when it is not None and is smaller than the configured minimum. -/
def bajo_umbral (umbral : ℚ) : Option ℚ → Bool
  | some x => decide (x < umbral)
  | none => false

/-- clasificar_tendencia (cm.py lines 57-86): forces the slight bucket when
either magnitude is below the floor, otherwise buckets the absolute
percentage at 10, 30 and 50. -/
def clasificar_tendencia (porcentaje : ℚ) (filas_actual filas_base : Option ℚ)
    (umbral_filas_min : ℚ) : String :=
  if bajo_umbral umbral_filas_min filas_actual || bajo_umbral umbral_filas_min filas_base then
    "Cambio Leve"
  else if |porcentaje| ≤ 10 then "Cambio Leve"
  else if |porcentaje| ≤ 30 then "Cambio Moderado"
  else if |porcentaje| ≤ 50 then "Cambio Alto"
  else "Cambio Crítico"

/-- The percentage-and-classification pair computed per file by
worker_procesar (cm.py lines 923-948): no reference or a zero reference
yields no comparison; when both values are below the hardcoded 10 the
percentage is dropped; otherwise the rounded percentage is computed and
classified. -/
def tendencia_filas (filas_actual : ℚ) (filas_ant : Option ℚ)
    (umbral_filas_min : ℚ) : Option ℚ × String :=
  match filas_ant with
  | none => (none, "Sin comparación")
  | some fb =>
    if fb ≠ 0 then
      if fb < 10 ∧ filas_actual < 10 then (none, "Cambio Leve")
      else
        (some (round2 ((filas_actual - fb) / fb * 100)),
         clasificar_tendencia (round2 ((filas_actual - fb) / fb * 100))
           (some filas_actual) (some fb) umbral_filas_min)
    else (none, "Sin comparación")

/-! ### Period scanner (buscar_carpetas_mes, cm.py lines 103-110) -/

/-- A directory entry of the base folder: its name and whether it is a
sub-directory. -/
structure DirEntry where
  name : String
  isDir : Bool
deriving DecidableEq

/-- The filter of buscar_carpetas_mes: a sub-directory whose name has six
characters, all digits. -/
def es_carpeta_mes (e : DirEntry) : Bool :=
  e.isDir && e.name.length == 6 && e.name.data.all Char.isDigit

/-- Lexicographic comparison of character lists by code point, the model of
Python string comparison used by list.sort(). -/
def lt_chars : List Char → List Char → Bool
  | [], [] => false
  | [], _ :: _ => true
  | _ :: _, [] => false
  | a :: as, b :: bs => if a < b then true else if b < a then false else lt_chars as bs

/-- One insertion step of the ascending sort. -/
def insertar_asc (x : String) : List String → List String
  | [] => [x]
  | y :: ys => if lt_chars x.data y.data then x :: y :: ys else y :: insertar_asc x ys

/-- Ascending sort of folder names, the model of carpetas_mes.sort(). -/
def ordenar_asc : List String → List String
  | [] => []
  | x :: xs => insertar_asc x (ordenar_asc xs)

/-- buscar_carpetas_mes (cm.py lines 103-110): keeps the six-digit
sub-directory names and sorts them in ascending lexical order. -/
def buscar_carpetas_mes (entries : List DirEntry) : List String :=
  ordenar_asc ((entries.filter es_carpeta_mes).map (fun e => e.name))

/-- Modelled from the spec: the chronological key of an MMYYYY period token
is the token rewritten as YYYYMM, so that lexical order on the key is
calendar order. -/
def clave_cronologica (s : String) : String :=
  String.mk ((s.data.drop 2) ++ (s.data.take 2))

/-! ### Path sanitizer and zip extraction (_sanitize_zipinfo_name and
extraer_archivo, cm.py lines 143-152 and 239-253).  Paths are modelled as
lists of characters. -/

/-- name.replace of backslashes by slashes. -/
def reemplazar_barras (s : List Char) : List Char :=
  s.map (fun c => if c = '\\' then '/' else c)

/-- name.lstrip of slashes, applied only when the name starts with one. -/
def quitar_barra_inicial (s : List Char) : List Char :=
  if s.head? = some '/' then s.dropWhile (fun c => c = '/') else s

/-- name.split on the slash character. -/
def dividir_barras : List Char → List (List Char)
  | [] => [[]]
  | c :: resto =>
    match dividir_barras resto with
    | [] => [[]]
    | g :: gs => if c = '/' then [] :: g :: gs else (c :: g) :: gs

/-- The segment filter of _sanitize_zipinfo_name: p not in two reserved
values, the empty segment and the parent segment. -/
def es_segmento_valido (p : List Char) : Bool :=
  !(p == [] || p == ['.', '.'])

/-- The kept segments of a sanitized entry name. -/
def partes_sanitizadas (name : List Char) : List (List Char) :=
  (dividir_barras (quitar_barra_inicial (reemplazar_barras name))).filter es_segmento_valido

/-- The slash join of segments. -/
def unir_barras : List (List Char) → List Char
  | [] => []
  | [p] => p
  | p :: q :: ps => p ++ '/' :: unir_barras (q :: ps)

/-- _sanitize_zipinfo_name (cm.py lines 143-152): normalize separators,
strip a leading slash, drop empty and parent segments, rejoin. -/
def _sanitize_zipinfo_name (name : List Char) : List Char :=
  unir_barras (partes_sanitizadas name)

/-- Path resolution under a root: a parent segment pops the last component,
an empty segment is ignored, any other segment descends. -/
def resolver_ruta (acc : List (List Char)) : List (List Char) → List (List Char)
  | [] => acc
  | p :: ps =>
    if p == ['.', '.'] then resolver_ruta acc.dropLast ps
    else if p == [] then resolver_ruta acc ps
    else resolver_ruta (acc ++ [p]) ps

/-- A zip archive entry: its raw name and whether it is a directory
marker. -/
structure MiembroZip where
  filename : List Char
  es_directorio : Bool

/-- The zip branch of extraer_archivo (cm.py lines 239-253), returning the
list of file paths written under dest_dir: an entry whose sanitized name is
empty is skipped, a directory entry only creates a folder, any other entry
writes one file at the joined path. -/
def extraer_archivo (dest_dir : List Char) : List MiembroZip → List (List Char)
  | [] => []
  | m :: resto =>
    let safe_name := _sanitize_zipinfo_name m.filename
    if safe_name == [] then extraer_archivo dest_dir resto
    else if m.es_directorio then extraer_archivo dest_dir resto
    else (dest_dir ++ '/' :: safe_name) :: extraer_archivo dest_dir resto

/-! ### Table reader, delimited-text branch (leer_archivo_generico and
contar_filas_validas, cm.py lines 356-376 and 686-697).  A file is
modelled as its list of physical lines, each line as its list of parsed
cells, a cell being none when empty (pandas NaN). -/

/-- The result of reading a file: either the streaming row count carried in
the one-cell __filas__ frame, or a fully parsed table. -/
inductive ResultadoLectura where
  | filas_solo (n : ℤ) : ResultadoLectura
  | tabla (rows : List (List (Option String))) : ResultadoLectura
deriving DecidableEq

/-- The delimited-text branch of leer_archivo_generico (cm.py lines
362-376): above 10 MB the physical lines are counted and one is subtracted
for the header; below, the table is parsed, the first line being the
header and blank physical lines being skipped by the parser. -/
def leer_archivo_generico (size_mb : ℚ)
    (lineas : List (List (Option String))) : ResultadoLectura :=
  if size_mb > 10 then .filas_solo ((lineas.length : ℤ) - 1)
  else .tabla ((lineas.drop 1).filter (fun r => !r.isEmpty))

/-- contar_filas_validas (cm.py lines 686-697): the carried count for a
streaming result, otherwise the number of rows that are not entirely
empty. -/
def contar_filas_validas : ResultadoLectura → ℤ
  | .filas_solo n => n
  | .tabla rows => ((rows.filter (fun r => r.any (fun c => c.isSome))).length : ℤ)

/-! ### Identity matcher (calcular_similitud and the previous-month lookup
of worker_procesar, cm.py lines 53-54 and 910-921).  The character-sequence
ratio of difflib is an input of the model; the lookup logic around it is
embedded from the source. -/

/-- One inventory row as seen by the matcher: file name, row count, size. -/
structure Fila where
  nombre : String
  filas : ℚ
  tamano : ℚ
deriving DecidableEq

/-- Python str.lower, per character. -/
def minusculas (s : String) : String := String.mk (s.data.map Char.toLower)

/-- calcular_similitud (cm.py lines 53-54): the sequence ratio applied to
the lowercased names. -/
def calcular_similitud (ratio : String → String → ℚ) (a b : String) : ℚ :=
  ratio (minusculas a) (minusculas b)

/-- One insertion step of the descending sort on the similarity column. -/
def insertar_desc (x : Fila × ℚ) : List (Fila × ℚ) → List (Fila × ℚ)
  | [] => [x]
  | y :: ys => if y.2 < x.2 then x :: y :: ys else y :: insertar_desc x ys

/-- Descending sort on the similarity column, the model of
sort_values on _sim with ascending false. -/
def sort_values_desc : List (Fila × ℚ) → List (Fila × ℚ)
  | [] => []
  | x :: xs => insertar_desc x (sort_values_desc xs)

/-- The fuzzy step of the lookup (cm.py lines 918-921): score every
candidate, sort descending on the score, accept the top candidate only at
0.8 or above. -/
def mejor_similar (ratio : String → String → ℚ) (df_mes_anterior : List Fila)
    (nombre_actual : String) : Option Fila :=
  match sort_values_desc (df_mes_anterior.map
      (fun r => (r, calcular_similitud ratio r.nombre nombre_actual))) with
  | [] => none
  | p :: _ => if (4 : ℚ) / 5 ≤ p.2 then some p.1 else none

/-- The previous-month lookup of worker_procesar (cm.py lines 910-921):
exact name matches first, taking the last recorded one; otherwise the
top of the descending similarity sort, accepted only at 0.8 or above. -/
def buscar_fila_mes_ant (ratio : String → String → ℚ) (df_mes_anterior : List Fila)
    (nombre_actual : String) : Option Fila :=
  match df_mes_anterior.filter (fun r => r.nombre == nombre_actual) with
  | e :: es => some ((e :: es).getLast (List.cons_ne_nil e es))
  | [] => mejor_similar ratio df_mes_anterior nombre_actual

/-- A sample similarity for concrete runs of the matcher: 1 on equal
lowercased names, 9/10 otherwise, so a non-exact candidate still scores
above the acceptance threshold. -/
def razon_ejemplo (a b : String) : ℚ := if a == b then 1 else 9 / 10

/-- A sample similarity scoring every pair below the acceptance
threshold. -/
def razon_baja (_a _b : String) : ℚ := 1 / 2

/-! ### Ledger (the historico accumulator of worker_procesar, cm.py lines
1097-1117 and 1131-1141) -/

/-- One row of the historical ledger: the inventory fields plus the period
tag Carpeta Mes. -/
structure FilaHistorico where
  nombre : String
  filas : ℚ
  tamano : ℚ
  mes : String
deriving DecidableEq

/-- The ledger update of worker_procesar (cm.py lines 1097-1117): only when
the period produced rows, the rows tagged with that period are purged and
the new rows appended; an empty period leaves the ledger untouched. -/
def actualizar_historico (df_historico : List FilaHistorico) (mes_carpeta : String)
    (df_historico_mes : List FilaHistorico) : List FilaHistorico :=
  if df_historico_mes.isEmpty then df_historico
  else (df_historico.filter (fun r => !(r.mes == mes_carpeta))) ++ df_historico_mes

/-! ### Orchestrator and cancellation (the month and file loops of
worker_procesar, cm.py lines 744-1153).  The cancellation event is
modelled by the poll count after which is_set returns true; the worker
polls once at each month boundary (line 747) and once before each file
read (line 811).  A month input is its period tag with the per-file rows
its files would produce; reading, trends and the saved summaries are
abstracted away, only the ledger content is tracked. -/

/-- The ledger row a processed file contributes for a period. -/
def a_fila_historico (mes : String) (f : Fila) : FilaHistorico :=
  ⟨f.nombre, f.filas, f.tamano, mes⟩

/-- The file loop of one month (cm.py lines 810-873): before each file the
cancellation event is polled; once observed the loop breaks, keeping the
rows accumulated so far.  Returns the poll counter and the accumulated
rows. -/
def procesar_archivos_mes (cancel_en : ℕ) (pc : ℕ) : List Fila → ℕ × List Fila
  | [] => (pc, [])
  | f :: resto =>
    if cancel_en ≤ pc then (pc + 1, [])
    else
      let r := procesar_archivos_mes cancel_en (pc + 1) resto
      (r.1, f :: r.2)

/-- The month loop of worker_procesar (cm.py lines 744-1153): at each month
boundary the cancellation event is polled and the loop breaks once it is
observed; otherwise the files are processed, the accumulated rows are
merged into the ledger, and the loop continues.  The returned ledger is
the one written to disk at the end of the run. -/
def worker_procesar (cancel_en : ℕ) (pc : ℕ) (df_historico : List FilaHistorico) :
    List (String × List Fila) → List FilaHistorico
  | [] => df_historico
  | (mes, archivos) :: resto =>
    if cancel_en ≤ pc then df_historico
    else
      let r := procesar_archivos_mes cancel_en (pc + 1) archivos
      worker_procesar cancel_en r.1
        (actualizar_historico df_historico mes (r.2.map (a_fila_historico mes))) resto

/-! ### Per-file error handling (the per-file try blocks of worker_procesar,
cm.py lines 826-873, and of procesar_carpeta_base, lista.py lines
501-529).  The outcome of leer_archivo_generico on one file is modelled as
an Except value: ok with the read result, or error with the message of the
raised failure. -/

/-- A blank cell for the null-detail scan: NaN, or a string of only
whitespace (the strip test of cm.py line 851). -/
def celda_en_blanco : Option String → Bool
  | none => true
  | some s => s.data.all Char.isWhitespace

/-- The column positions of the blank cells of a row. -/
def columnas_afectadas (r : List (Option String)) : List ℕ :=
  (r.enum.filter (fun p => celda_en_blanco p.2)).map Prod.fst

/-- One record of the null-detail output (cm.py lines 847-861). -/
structure DetalleNulo where
  archivo : String
  fila : ℕ
  columnas : List ℕ
deriving DecidableEq

/-- The null-detail rows of one successfully parsed table (cm.py lines
847-861): the rows holding at least one blank cell, numbered from 2. -/
def detalle_nulos_de (nombre : String) (rows : List (List (Option String))) :
    List DetalleNulo :=
  (List.enumFrom 2 (rows.filter (fun r => r.any celda_en_blanco))).map
    (fun p => ⟨nombre, p.1, columnas_afectadas p.2⟩)

/-- One row of the monthly inventory (datos_mes, cm.py lines 863-869). -/
structure DatoMes where
  correlativo : ℕ
  nombre_archivo : String
  tamano_kb : Option ℚ
  cantidad_filas : ℤ
  carpeta_mes : String
deriving DecidableEq

deriving instance DecidableEq for Except

/-- One file to process: its display name, its size, and the outcome its
read would produce. -/
structure ItemArchivo where
  nombre : String
  tamano_kb : Option ℚ
  lectura : Except String ResultadoLectura
deriving DecidableEq

/-- The per-file body of the worker loop (cm.py lines 826-869): a failed
read is caught, yields a zero row count in the inventory and no null-detail
records; a successful read is counted and scanned for blank cells. -/
def procesar_item (mes : String) (correlativo : ℕ) (it : ItemArchivo) :
    DatoMes × List DetalleNulo :=
  match it.lectura with
  | .error _ => (⟨correlativo, it.nombre, it.tamano_kb, 0, mes⟩, [])
  | .ok res =>
    (⟨correlativo, it.nombre, it.tamano_kb, contar_filas_validas res, mes⟩,
     match res with
     | .filas_solo _ => []
     | .tabla rows => detalle_nulos_de it.nombre rows)

/-- The per-month file loop of worker_procesar restricted to inventory and
null-detail accumulation (cm.py lines 805-873). -/
def procesar_archivos_cm (mes : String) (correlativo : ℕ) :
    List ItemArchivo → List DatoMes × List DetalleNulo
  | [] => ([], [])
  | it :: resto =>
    let p := procesar_item mes correlativo it
    let r := procesar_archivos_cm mes (correlativo + 1) resto
    (p.1 :: r.1, p.2 ++ r.2)

/-- One row of the listing output of lista.py (lines 514-520). -/
structure FilaListado where
  mes : String
  archivo : String
  cantidad_filas : ℤ
  tamano_kb : Option ℚ
deriving DecidableEq

/-- One row of the error-detail output of lista.py (lines 523-528): the
failing file with its error message, and no row count. -/
structure FilaErrorListado where
  mes : String
  archivo : String
  error : String
deriving DecidableEq

/-- The row count used by lista.py line 512: the carried count for a
streaming result, otherwise the plain length of the parsed table. -/
def contar_filas_listado : ResultadoLectura → ℤ
  | .filas_solo n => n
  | .tabla rows => (rows.length : ℤ)

/-- The per-file loop of procesar_carpeta_base (lista.py lines 501-529): a
successful read appends a listing row; a failed read appends an error
record instead and the loop continues. -/
def procesar_carpeta_base (mes : String) :
    List ItemArchivo → List FilaListado × List FilaErrorListado
  | [] => ([], [])
  | it :: resto =>
    let r := procesar_carpeta_base mes resto
    match it.lectura with
    | .ok res => (⟨mes, it.nombre, contar_filas_listado res, it.tamano_kb⟩ :: r.1, r.2)
    | .error e => (r.1, ⟨mes, it.nombre, e⟩ :: r.2)

/-! ## Helper lemmas -/

theorem filtrar_purga_mismo (L : List FilaHistorico) (mes : String) :
    (L.filter (fun r => !(r.mes == mes))).filter (fun r => r.mes == mes) = [] := by
  rw [List.filter_filter]
  exact List.filter_eq_nil_iff.mpr (by
    intro a _
    by_cases h : a.mes = mes
    · simp [h]
    · simp [h])

theorem filtrar_purga_otro (L : List FilaHistorico) (mes m : String) (hm : m ≠ mes) :
    (L.filter (fun r => !(r.mes == mes))).filter (fun r => r.mes == m) =
      L.filter (fun r => r.mes == m) := by
  rw [List.filter_filter]
  refine List.filter_congr ?_
  intro a _
  by_cases h : a.mes = m
  · simp [h, hm]
  · simp [h]

theorem filtrar_etiquetadas_mismo (rows : List FilaHistorico) (mes : String)
    (htag : ∀ r ∈ rows, r.mes = mes) :
    rows.filter (fun r => r.mes == mes) = rows := by
  refine List.filter_eq_self.mpr ?_
  intro a ha
  simp [htag a ha]

theorem filtrar_etiquetadas_otro (rows : List FilaHistorico) (mes m : String)
    (hm : m ≠ mes) (htag : ∀ r ∈ rows, r.mes = mes) :
    rows.filter (fun r => r.mes == m) = [] := by
  refine List.filter_eq_nil_iff.mpr ?_
  intro a ha
  have : a.mes = mes := htag a ha
  simp [this, Ne.symm hm]

theorem filtrar_actualizar_otro (L : List FilaHistorico) (mes m : String)
    (rows : List FilaHistorico) (hm : m ≠ mes) (htag : ∀ r ∈ rows, r.mes = mes) :
    (actualizar_historico L mes rows).filter (fun r => r.mes == m) =
      L.filter (fun r => r.mes == m) := by
  rw [actualizar_historico]
  by_cases hr : rows.isEmpty
  · rw [if_pos hr]
  · rw [if_neg hr, List.filter_append, filtrar_purga_otro L mes m hm,
      filtrar_etiquetadas_otro rows mes m hm htag, List.append_nil]

/-! ## Claims -/

/-- C10: if processing a period produces an empty row set, the ledger is
left entirely unchanged: the purge of that period is skipped along with
the append, so rows recorded for that period by an earlier run persist in
the rewritten store. -/
theorem mes_vacio_no_modifica_historico (L : List FilaHistorico) (mes : String) :
    actualizar_historico L mes [] = L ∧
    (actualizar_historico L mes []).filter (fun r => r.mes == mes) =
      L.filter (fun r => r.mes == mes) :=
  ⟨rfl, rfl⟩

/-- C3: upserting a nonempty row set of a period into the ledger purges
exactly the rows tagged with that period, appends the new rows, leaves
every other period unchanged, and doing it twice with the same rows gives
the same ledger. -/
theorem actualizar_historico_upsert (L : List FilaHistorico) (mes : String)
    (rows : List FilaHistorico) (hne : rows ≠ [])
    (htag : ∀ r ∈ rows, r.mes = mes) :
    (actualizar_historico L mes rows).filter (fun r => r.mes == mes) = rows ∧
    (∀ m, m ≠ mes → (actualizar_historico L mes rows).filter (fun r => r.mes == m)
        = L.filter (fun r => r.mes == m)) ∧
    actualizar_historico (actualizar_historico L mes rows) mes rows =
      actualizar_historico L mes rows := by
  have hre : ¬ rows.isEmpty := by
    cases rows with
    | nil => exact absurd rfl hne
    | cons a l => simp
  refine ⟨?_, ?_, ?_⟩
  · rw [actualizar_historico, if_neg hre, List.filter_append,
      filtrar_purga_mismo L mes, filtrar_etiquetadas_mismo rows mes htag,
      List.nil_append]
  · intro m hm
    exact filtrar_actualizar_otro L mes m rows hm htag
  · have base : actualizar_historico L mes rows =
        L.filter (fun r => !(r.mes == mes)) ++ rows := by
      rw [actualizar_historico, if_neg hre]
    rw [base, actualizar_historico, if_neg hre, List.filter_append]
    have h1 : (L.filter (fun r => !(r.mes == mes))).filter (fun r => !(r.mes == mes)) =
        L.filter (fun r => !(r.mes == mes)) := by
      rw [List.filter_filter]
      exact List.filter_congr (by intro a _; by_cases h : a.mes = mes <;> simp [h])
    have h2 : rows.filter (fun r => !(r.mes == mes)) = [] := by
      refine List.filter_eq_nil_iff.mpr ?_
      intro a ha
      simp [htag a ha]
    rw [h1, h2, List.append_nil]

/-- Witness for C3 at a concrete ledger and period. -/
theorem actualizar_historico_upsert_testigo :
    (actualizar_historico [⟨"a", 1, 1, "012025"⟩, ⟨"b", 2, 2, "022025"⟩] "022025"
        [⟨"c", 3, 3, "022025"⟩]).filter (fun r => r.mes == "022025") =
      [⟨"c", 3, 3, "022025"⟩] ∧
    (actualizar_historico [⟨"a", 1, 1, "012025"⟩, ⟨"b", 2, 2, "022025"⟩] "022025"
        [⟨"c", 3, 3, "022025"⟩]).filter (fun r => r.mes == "012025") =
      ([⟨"a", 1, 1, "012025"⟩, ⟨"b", 2, 2, "022025"⟩] : List FilaHistorico).filter
        (fun r => r.mes == "012025") ∧
    actualizar_historico (actualizar_historico
        [⟨"a", 1, 1, "012025"⟩, ⟨"b", 2, 2, "022025"⟩] "022025"
        [⟨"c", 3, 3, "022025"⟩]) "022025" [⟨"c", 3, 3, "022025"⟩] =
      actualizar_historico [⟨"a", 1, 1, "012025"⟩, ⟨"b", 2, 2, "022025"⟩] "022025"
        [⟨"c", 3, 3, "022025"⟩] := by
  have h := actualizar_historico_upsert
    [⟨"a", 1, 1, "012025"⟩, ⟨"b", 2, 2, "022025"⟩] "022025"
    [⟨"c", 3, 3, "022025"⟩] (by decide) (by decide)
  exact ⟨h.1, h.2.1 "012025" (by decide), h.2.2⟩

/-- C8 (code bug): on a base directory holding the period folders 122024
(December 2024) and 012025 (January 2025), the scanner returns exactly the
six-digit sub-directory names in ascending lexical order, yet that order
is not chronological for MMYYYY tokens: the chronological key of 122024
precedes the key of 012025, while the returned list puts 012025 first. -/
theorem orden_carpetas_no_cronologico :
    buscar_carpetas_mes
        [⟨"122024", true⟩, ⟨"012025", true⟩, ⟨"notas", true⟩, ⟨"202401", false⟩] =
      ["012025", "122024"] ∧
    lt_chars (clave_cronologica "122024").data (clave_cronologica "012025").data = true :=
  ⟨by decide, by decide⟩

/-- C2 counterexample: with current 5, reference 100 and floor 10 the
current value is below the floor, yet the computed pair is not the claimed
pair of a null percentage with the slight bucket: the percentage -95 is
kept. -/
theorem umbral_leve_contraejemplo :
    (5 : ℚ) < 10 ∧ tendencia_filas 5 (some 100) 10 ≠ (none, "Cambio Leve") := by
  refine ⟨by norm_num, ?_⟩
  have h : tendencia_filas 5 (some 100) 10 = (some (-95), "Cambio Leve") := by
    rw [tendencia_filas, if_pos (by norm_num : (100:ℚ) ≠ 0),
      if_neg (by norm_num : ¬ ((100:ℚ) < 10 ∧ (5:ℚ) < 10))]
    have h1 : round2 (((5:ℚ) - 100) / 100 * 100) = -95 := by
      norm_num [round2, round_eq]
    rw [h1]
    have h2 : clasificar_tendencia (-95) (some 5) (some 100) 10 = "Cambio Leve" := by
      simp [clasificar_tendencia, bajo_umbral]
      norm_num
    rw [h2]
  rw [h]
  simp

/-- C2 (amended): with a nonzero reference, whenever the current or the
reference value is below the floor the classification is the slight
bucket, but the percentage is null exactly when both values are below the
hardcoded 10; otherwise the percentage is still computed. -/
theorem umbral_forzado_leve (c r u : ℚ) (h0 : r ≠ 0) (h : c < u ∨ r < u) :
    (tendencia_filas c (some r) u).2 = "Cambio Leve" ∧
    ((tendencia_filas c (some r) u).1 = none ↔ (r < 10 ∧ c < 10)) := by
  rw [tendencia_filas, if_pos h0]
  by_cases h10 : r < 10 ∧ c < 10
  · rw [if_pos h10]
    exact ⟨rfl, by simp [h10]⟩
  · rw [if_neg h10]
    constructor
    · show clasificar_tendencia _ (some c) (some r) u = "Cambio Leve"
      rw [clasificar_tendencia]
      have hb : (bajo_umbral u (some c) || bajo_umbral u (some r)) = true := by
        rcases h with h | h
        · simp [bajo_umbral, h]
        · simp [bajo_umbral, h]
      rw [if_pos hb]
    · simp [h10]

/-- Witness for C2 amended at current 5, reference 100, floor 10. -/
theorem umbral_forzado_leve_testigo :
    (100 : ℚ) ≠ 0 ∧ ((5 : ℚ) < 10 ∨ (100 : ℚ) < 10) ∧
    ((tendencia_filas 5 (some 100) 10).2 = "Cambio Leve" ∧
      ((tendencia_filas 5 (some 100) 10).1 = none ↔ ((100 : ℚ) < 10 ∧ (5 : ℚ) < 10))) :=
  ⟨by norm_num, Or.inl (by norm_num),
    umbral_forzado_leve 5 100 10 (by norm_num) (Or.inl (by norm_num))⟩

/-- C7 counterexample: at floor 3 with current 5 and reference 5, both
values are at least the floor and the reference is nonzero, yet the
percentage is dropped (both values sit below the hardcoded 10) instead of
being the claimed rounded value 0. -/
theorem clasificacion_porcentaje_contraejemplo :
    (3 : ℚ) ≤ 5 ∧ (5 : ℚ) ≠ 0 ∧
    (tendencia_filas 5 (some 5) 3).1 ≠ some (round2 ((5 - 5) / 5 * 100)) := by
  refine ⟨by norm_num, by norm_num, ?_⟩
  have h : tendencia_filas 5 (some 5) 3 = (none, "Cambio Leve") := by
    rw [tendencia_filas, if_pos (by norm_num : (5:ℚ) ≠ 0),
      if_pos (by norm_num : ((5:ℚ) < 10 ∧ (5:ℚ) < 10))]
  rw [h]
  simp

/-- C7 (amended): when both values are at least the floor, the reference
is nonzero, and the two values are not both below the hardcoded 10, the
worker returns the rounded percentage 100*(current-reference)/reference
and buckets its absolute value at 10, 30 and 50. -/
theorem clasificacion_porcentaje (c r u : ℚ) (h1 : u ≤ c) (h2 : u ≤ r)
    (h3 : r ≠ 0) (h4 : ¬ (r < 10 ∧ c < 10)) :
    tendencia_filas c (some r) u =
      (some (round2 ((c - r) / r * 100)),
       if |round2 ((c - r) / r * 100)| ≤ 10 then "Cambio Leve"
       else if |round2 ((c - r) / r * 100)| ≤ 30 then "Cambio Moderado"
       else if |round2 ((c - r) / r * 100)| ≤ 50 then "Cambio Alto"
       else "Cambio Crítico") := by
  rw [tendencia_filas, if_pos h3, if_neg h4]
  have hb : (bajo_umbral u (some c) || bajo_umbral u (some r)) = false := by
    simp only [bajo_umbral, Bool.or_eq_false_iff, decide_eq_false_iff_not]
    exact ⟨not_lt.mpr h1, not_lt.mpr h2⟩
  rw [clasificar_tendencia, if_neg (by simp [hb])]

/-- Witness for C7 amended at current 200, reference 100, floor 10: the
percentage is 100 and the bucket is the critical one. -/
theorem clasificacion_porcentaje_testigo :
    (10 : ℚ) ≤ 200 ∧ (10 : ℚ) ≤ 100 ∧ (100 : ℚ) ≠ 0 ∧
    ¬ ((100 : ℚ) < 10 ∧ (200 : ℚ) < 10) ∧
    tendencia_filas 200 (some 100) 10 = (some 100, "Cambio Crítico") := by
  refine ⟨by norm_num, by norm_num, by norm_num, by norm_num, ?_⟩
  have h := clasificacion_porcentaje 200 100 10 (by norm_num) (by norm_num)
    (by norm_num) (by norm_num)
  rw [h]
  have hr : round2 (((200:ℚ) - 100) / 100 * 100) = 100 := by
    norm_num [round2, round_eq]
  rw [hr]
  norm_num

/-- C5 counterexample: a file whose data holds an entirely empty row is
counted differently by the two paths: below the threshold the blank row is
excluded, above it the newline count keeps it. -/
theorem conteo_streaming_contraejemplo :
    contar_filas_validas (leer_archivo_generico 9 [[some "h"], [some "a"], [none]]) ≠
      contar_filas_validas (leer_archivo_generico 11 [[some "h"], [some "a"], [none]]) := by
  decide

/-- C5 (amended): for a delimited file below and one above the streaming
threshold with identical content, whenever every data row holds at least
one non-empty cell the streaming count (lines minus header) equals the
full-parse count (rows that are not entirely blank). -/
theorem conteo_streaming_equivalente (s1 s2 : ℚ) (lineas : List (List (Option String)))
    (h1 : ¬ s1 > 10) (h2 : s2 > 10) (h3 : lineas ≠ [])
    (h4 : ∀ r ∈ lineas.drop 1, ∃ c ∈ r, c.isSome = true) :
    contar_filas_validas (leer_archivo_generico s1 lineas) =
      contar_filas_validas (leer_archivo_generico s2 lineas) := by
  rw [leer_archivo_generico, if_neg h1, leer_archivo_generico, if_pos h2]
  simp only [contar_filas_validas]
  have e1 : (lineas.drop 1).filter (fun r => !r.isEmpty) = lineas.drop 1 := by
    refine List.filter_eq_self.mpr ?_
    intro r hr
    obtain ⟨c, hc, _⟩ := h4 r hr
    have : r ≠ [] := List.ne_nil_of_mem hc
    simp [this]
  rw [e1]
  have e2 : (lineas.drop 1).filter (fun r => r.any (fun c => c.isSome)) = lineas.drop 1 := by
    refine List.filter_eq_self.mpr ?_
    intro r hr
    obtain ⟨c, hc, hcs⟩ := h4 r hr
    exact List.any_eq_true.mpr ⟨c, hc, hcs⟩
  rw [e2, List.length_drop]
  have : 1 ≤ lineas.length := List.length_pos.mpr h3
  omega

/-- Witness for C5 amended at sizes 9 and 11 and a three-line file. -/
theorem conteo_streaming_equivalente_testigo :
    ¬ (9 : ℚ) > 10 ∧ (11 : ℚ) > 10 ∧
    contar_filas_validas (leer_archivo_generico 9 [[some "h"], [some "a"], [some "b"]]) =
      contar_filas_validas (leer_archivo_generico 11 [[some "h"], [some "a"], [some "b"]]) :=
  ⟨by norm_num, by norm_num,
    conteo_streaming_equivalente 9 11 [[some "h"], [some "a"], [some "b"]]
      (by norm_num) (by norm_num) (by decide) (by decide)⟩

theorem dividir_barras_ne_nil (s : List Char) : dividir_barras s ≠ [] := by
  induction s with
  | nil => simp [dividir_barras]
  | cons c resto ih =>
    cases h : dividir_barras resto with
    | nil => exact absurd h ih
    | cons g gs =>
      rw [dividir_barras, h]
      by_cases hc : c = '/' <;> simp [hc]

theorem sin_barra_en_dividir (s : List Char) (p : List Char)
    (hp : p ∈ dividir_barras s) : '/' ∉ p := by
  induction s generalizing p with
  | nil =>
    simp [dividir_barras] at hp
    simp [hp]
  | cons c resto ih =>
    cases h : dividir_barras resto with
    | nil => exact absurd h (dividir_barras_ne_nil resto)
    | cons g gs =>
      rw [dividir_barras, h] at hp
      replace hp : p ∈ (if c = '/' then ([] : List Char) :: g :: gs else (c :: g) :: gs) := hp
      by_cases hc : c = '/'
      · rw [if_pos hc] at hp
        rcases List.mem_cons.mp hp with hp1 | hp2
        · simp [hp1]
        · exact ih p (by rw [h]; exact hp2)
      · rw [if_neg hc] at hp
        rcases List.mem_cons.mp hp with hp1 | hp2
        · subst hp1
          intro hmem
          rcases List.mem_cons.mp hmem with h1 | h2
          · exact hc h1.symm
          · exact ih g (by rw [h]; exact List.mem_cons_self g gs) h2
        · exact ih p (by rw [h]; exact List.mem_cons_of_mem g hp2)

theorem unir_barras_cabeza (parts : List (List Char))
    (h : ∀ p ∈ parts, p ≠ [] ∧ '/' ∉ p) :
    (unir_barras parts).head? ≠ some '/' := by
  match parts with
  | [] => simp [unir_barras]
  | [p] =>
    obtain ⟨hne, hns⟩ := h p (List.mem_singleton.mpr rfl)
    cases p with
    | nil => exact absurd rfl hne
    | cons a as =>
      rw [unir_barras]
      intro heq
      have : a = '/' := by simpa using heq
      exact hns (by rw [this]; exact List.mem_cons_self '/' as)
  | p :: q :: ps =>
    obtain ⟨hne, hns⟩ := h p (List.mem_cons_self p (q :: ps))
    cases p with
    | nil => exact absurd rfl hne
    | cons a as =>
      rw [unir_barras]
      intro heq
      have : a = '/' := by simpa using heq
      exact hns (by rw [this]; exact List.mem_cons_self '/' as)

theorem dividir_sin_barras (p : List Char) (hp : '/' ∉ p) : dividir_barras p = [p] := by
  induction p with
  | nil => rfl
  | cons a as ih =>
    have ha : a ≠ '/' := fun he => hp (by rw [he]; exact List.mem_cons_self '/' as)
    have has : '/' ∉ as := fun hm => hp (List.mem_cons_of_mem a hm)
    rw [dividir_barras, ih has]
    simp [fun he => ha he]

theorem dividir_append (p s g : List Char) (gs : List (List Char))
    (hp : '/' ∉ p) (hs : dividir_barras s = g :: gs) :
    dividir_barras (p ++ s) = (p ++ g) :: gs := by
  induction p with
  | nil => simpa using hs
  | cons a as ih =>
    have ha : a ≠ '/' := fun he => hp (by rw [he]; exact List.mem_cons_self '/' as)
    have has : '/' ∉ as := fun hm => hp (List.mem_cons_of_mem a hm)
    rw [List.cons_append, dividir_barras, ih has]
    simp [fun he => ha he]

theorem dividir_unir (parts : List (List Char)) (hne : parts ≠ [])
    (h : ∀ p ∈ parts, '/' ∉ p) :
    dividir_barras (unir_barras parts) = parts := by
  induction parts with
  | nil => exact absurd rfl hne
  | cons p rest ih =>
    cases rest with
    | nil => rw [unir_barras]; exact dividir_sin_barras p (h p (List.mem_singleton.mpr rfl))
    | cons q ps =>
      rw [unir_barras]
      have hrec : dividir_barras (unir_barras (q :: ps)) = q :: ps :=
        ih (List.cons_ne_nil q ps) (fun r hr => h r (List.mem_cons_of_mem p hr))
      have hslash : dividir_barras ('/' :: unir_barras (q :: ps)) = [] :: q :: ps := by
        rw [dividir_barras, hrec]
        simp
      have := dividir_append p ('/' :: unir_barras (q :: ps)) [] (q :: ps)
        (h p (List.mem_cons_self p (q :: ps))) hslash
      simpa using this

theorem resolver_sin_padres (l : List (List Char)) (acc : List (List Char))
    (h : ∀ p ∈ l, p ≠ [] ∧ p ≠ ['.', '.']) :
    resolver_ruta acc l = acc ++ l := by
  induction l generalizing acc with
  | nil => simp [resolver_ruta]
  | cons p ps ih =>
    obtain ⟨h1, h2⟩ := h p (List.mem_cons_self p ps)
    rw [resolver_ruta, if_neg (by simp [h2]), if_neg (by simp [h1]),
      ih (acc ++ [p]) (fun r hr => h r (List.mem_cons_of_mem p hr))]
    simp

theorem partes_validas (name : List Char) :
    ∀ p ∈ partes_sanitizadas name, p ≠ [] ∧ p ≠ ['.', '.'] ∧ '/' ∉ p := by
  intro p hp
  have hmem := List.mem_of_mem_filter hp
  have hval := List.of_mem_filter hp
  refine ⟨?_, ?_, sin_barra_en_dividir _ p hmem⟩
  · intro he
    subst he
    simp [es_segmento_valido] at hval
  · intro he
    subst he
    simp [es_segmento_valido] at hval

/-- C4: for every raw archive entry name, the sanitized output has no
leading separator and no parent segment, resolving it under any root
stays below that root (the resolved path is the root followed by the kept
segments), and entries sanitizing to the empty name are discarded by the
zip extraction, writing no file. -/
theorem sanitizador_confina_rutas (name : List Char) (root : List (List Char))
    (dest_dir : List Char) (miembros : List MiembroZip) :
    (_sanitize_zipinfo_name name).head? ≠ some '/' ∧
    ['.', '.'] ∉ dividir_barras (_sanitize_zipinfo_name name) ∧
    resolver_ruta root (dividir_barras (_sanitize_zipinfo_name name)) =
      root ++ partes_sanitizadas name ∧
    extraer_archivo dest_dir miembros =
      extraer_archivo dest_dir
        (miembros.filter (fun m => !(_sanitize_zipinfo_name m.filename == []))) := by
  have hv := partes_validas name
  refine ⟨?_, ?_, ?_, ?_⟩
  · exact unir_barras_cabeza _ (fun p hp => ⟨(hv p hp).1, (hv p hp).2.2⟩)
  · cases hps : partes_sanitizadas name with
    | nil =>
      rw [_sanitize_zipinfo_name, hps]
      simp [unir_barras, dividir_barras]
    | cons p ps =>
      rw [_sanitize_zipinfo_name, hps,
        dividir_unir (p :: ps) (List.cons_ne_nil p ps)
          (fun r hr => (hv r (hps ▸ hr)).2.2)]
      intro hmem
      exact (hv _ (hps ▸ hmem)).2.1 rfl
  · cases hps : partes_sanitizadas name with
    | nil =>
      rw [_sanitize_zipinfo_name, hps]
      simp [unir_barras, dividir_barras, resolver_ruta]
    | cons p ps =>
      rw [_sanitize_zipinfo_name, hps,
        dividir_unir (p :: ps) (List.cons_ne_nil p ps)
          (fun r hr => (hv r (hps ▸ hr)).2.2)]
      exact resolver_sin_padres (p :: ps) root
        (fun r hr => ⟨(hv r (hps ▸ hr)).1, (hv r (hps ▸ hr)).2.1⟩)
  · induction miembros with
    | nil => rfl
    | cons m resto ih =>
      simp only [extraer_archivo, List.filter_cons]
      by_cases hm : _sanitize_zipinfo_name m.filename = []
      · simp only [hm]
        simp [ih]
      · by_cases hd : m.es_directorio
        · simp [extraer_archivo, hm, hd, ih]
        · simp [extraer_archivo, hm, hd, ih]

/-- C9 counterexample: a file whose read raises is recorded in the monthly
inventory with a zero row count, but the null-detail output of cm.py stays
empty: the failure is not recorded there. -/
theorem fallo_lectura_contraejemplo :
    (procesar_archivos_cm "012025" 1
        [⟨"f.xyz", some 1, .error "Formato no soportado"⟩]).2 = [] ∧
    (procesar_archivos_cm "012025" 1
        [⟨"f.xyz", some 1, .error "Formato no soportado"⟩]).1 =
      [⟨1, "f.xyz", some 1, 0, "012025"⟩] :=
  ⟨by decide, by decide⟩

/-- C9 (amended): a failing read in the middle of a month is caught at the
file level: in cm.py it yields an inventory row with a zero count and no
null-detail record, and the remaining files are processed unchanged; in
lista.py it yields an error-detail record carrying the message and no row
count, and the remaining files are processed unchanged.  In neither
application does the failure abort the period. -/
theorem fallo_lectura_no_aborta (mes : String) (c : ℕ)
    (pre post pre2 post2 : List ItemArchivo) (it : ItemArchivo) (e : String)
    (he : it.lectura = .error e) :
    procesar_archivos_cm mes c (pre ++ it :: post) =
      ((procesar_archivos_cm mes c pre).1 ++
        (⟨c + pre.length, it.nombre, it.tamano_kb, 0, mes⟩ : DatoMes) ::
          (procesar_archivos_cm mes (c + pre.length + 1) post).1,
       (procesar_archivos_cm mes c pre).2 ++
        (procesar_archivos_cm mes (c + pre.length + 1) post).2) ∧
    procesar_carpeta_base mes (pre2 ++ it :: post2) =
      ((procesar_carpeta_base mes pre2).1 ++ (procesar_carpeta_base mes post2).1,
       (procesar_carpeta_base mes pre2).2 ++
        (⟨mes, it.nombre, e⟩ : FilaErrorListado) :: (procesar_carpeta_base mes post2).2) := by
  constructor
  · induction pre generalizing c with
    | nil =>
      simp [procesar_archivos_cm, procesar_item, he]
    | cons a pre ih =>
      simp only [List.cons_append, procesar_archivos_cm, List.length_cons, List.append_eq]
      rw [ih (c + 1)]
      have hlen : c + 1 + pre.length = c + (pre.length + 1) := by omega
      rw [hlen]
      simp [List.append_assoc]
  · induction pre2 with
    | nil =>
      simp only [List.nil_append, procesar_carpeta_base, he]
    | cons a pre2 ih =>
      simp only [List.cons_append, procesar_carpeta_base, List.append_eq]
      rw [ih]
      cases ha : a.lectura with
      | ok res => simp
      | error e2 => simp

/-- Witness for C9 amended: one failing file between two readable ones in
cm.py, and one failing file before a readable one in lista.py. -/
theorem fallo_lectura_no_aborta_testigo :
    procesar_archivos_cm "012025" 1
        [⟨"a.csv", some 2, .ok (.tabla [[some "x"]])⟩,
         ⟨"f.xyz", some 1, .error "boom"⟩,
         ⟨"b.csv", some 3, .ok (.tabla [[some "y"], [some "z"]])⟩] =
      ([⟨1, "a.csv", some 2, 1, "012025"⟩,
        ⟨2, "f.xyz", some 1, 0, "012025"⟩,
        ⟨3, "b.csv", some 3, 2, "012025"⟩], []) ∧
    procesar_carpeta_base "012025"
        [⟨"f.xyz", some 1, .error "boom"⟩,
         ⟨"a.csv", some 2, .ok (.tabla [[some "x"]])⟩] =
      ([⟨"012025", "a.csv", 1, some 2⟩], [⟨"012025", "f.xyz", "boom"⟩]) := by
  have h := fallo_lectura_no_aborta "012025" 1
    [⟨"a.csv", some 2, .ok (.tabla [[some "x"]])⟩]
    [⟨"b.csv", some 3, .ok (.tabla [[some "y"], [some "z"]])⟩]
    []
    [⟨"a.csv", some 2, .ok (.tabla [[some "x"]])⟩]
    ⟨"f.xyz", some 1, .error "boom"⟩ "boom" rfl
  exact ⟨h.1.trans (by decide), h.2.trans (by decide)⟩

theorem procesar_archivos_cancelado (cancel_en p0 : ℕ) (archivos : List Fila)
    (h1 : p0 ≤ cancel_en) (h2 : cancel_en < p0 + archivos.length) :
    procesar_archivos_mes cancel_en p0 archivos =
      (cancel_en + 1, archivos.take (cancel_en - p0)) := by
  induction archivos generalizing p0 with
  | nil => simp at h2; omega
  | cons f resto ih =>
    by_cases hc : cancel_en ≤ p0
    · have hpe : p0 = cancel_en := Nat.le_antisymm h1 hc
      rw [procesar_archivos_mes, if_pos hc]
      have hz : cancel_en - p0 = 0 := by omega
      rw [hz, hpe]
      rfl
    · rw [procesar_archivos_mes, if_neg hc]
      have ih2 := ih (p0 + 1) (by omega) (by simp at h2 ⊢; omega)
      rw [ih2]
      have hsucc : cancel_en - p0 = (cancel_en - (p0 + 1)) + 1 := by omega
      rw [hsucc, List.take_succ_cons]

theorem worker_procesar_cancelado (cancel_en pc : ℕ) (L : List FilaHistorico)
    (meses : List (String × List Fila)) (h : cancel_en ≤ pc) :
    worker_procesar cancel_en pc L meses = L := by
  cases meses with
  | nil => rfl
  | cons m resto =>
    cases m with
    | mk mes archivos => rw [worker_procesar, if_pos h]

/-- C1 counterexample: with the cancellation observed at the second file
poll of the first month, the run still merges the first file into the
ledger, so after the run the ledger does hold rows tagged with the
cancelled period. -/
theorem cancelacion_contraejemplo :
    (worker_procesar 2 0 [] [("012025", [⟨"a.csv", 1, 1⟩, ⟨"b.csv", 2, 2⟩])]).filter
        (fun r => r.mes == "012025") ≠ [] ∧
    worker_procesar 2 0 [] [("012025", [⟨"a.csv", 1, 1⟩, ⟨"b.csv", 2, 2⟩])] =
      [⟨"a.csv", 1, 1, "012025"⟩] :=
  ⟨by decide, by decide⟩

/-- C1 (amended): when the cancellation is observed at one of the file
polls of a month, the run returns the starting ledger upserted with
exactly the files processed before the observation (a prefix of the month
file list) tagged with that month; the remaining months of the run are
never processed, and every other period keeps exactly the ledger rows it
had at run start. -/
theorem cancelacion_fusiona_prefijo (cancel_en pc : ℕ) (L : List FilaHistorico)
    (mes : String) (archivos : List Fila) (resto : List (String × List Fila))
    (h1 : pc < cancel_en) (h2 : cancel_en ≤ pc + archivos.length) :
    worker_procesar cancel_en pc L ((mes, archivos) :: resto) =
      actualizar_historico L mes
        ((archivos.take (cancel_en - (pc + 1))).map (a_fila_historico mes)) ∧
    (∀ m, m ≠ mes →
      (worker_procesar cancel_en pc L ((mes, archivos) :: resto)).filter
          (fun r => r.mes == m) = L.filter (fun r => r.mes == m)) := by
  have hmain : worker_procesar cancel_en pc L ((mes, archivos) :: resto) =
      actualizar_historico L mes
        ((archivos.take (cancel_en - (pc + 1))).map (a_fila_historico mes)) := by
    rw [worker_procesar, if_neg (by omega : ¬ cancel_en ≤ pc)]
    rw [procesar_archivos_cancelado cancel_en (pc + 1) archivos (by omega) (by omega)]
    exact worker_procesar_cancelado cancel_en (cancel_en + 1) _ resto (by omega)
  refine ⟨hmain, ?_⟩
  intro m hm
  rw [hmain]
  refine filtrar_actualizar_otro L mes m _ hm ?_
  intro r hr
  obtain ⟨f, _, rfl⟩ := List.mem_map.mp hr
  rfl

/-- Witness for C1 amended: cancellation observed at the second file poll
of the first of two months. -/
theorem cancelacion_fusiona_prefijo_testigo :
    0 < 2 ∧ 2 ≤ 0 + ([⟨"a.csv", 1, 1⟩, ⟨"b.csv", 2, 2⟩] : List Fila).length ∧
    worker_procesar 2 0 []
        [("012025", [⟨"a.csv", 1, 1⟩, ⟨"b.csv", 2, 2⟩]), ("022025", [⟨"c.csv", 3, 3⟩])] =
      actualizar_historico [] "012025"
        ((([⟨"a.csv", 1, 1⟩, ⟨"b.csv", 2, 2⟩] : List Fila).take (2 - (0 + 1))).map
          (a_fila_historico "012025")) :=
  ⟨by omega, by decide,
    (cancelacion_fusiona_prefijo 2 0 [] "012025" [⟨"a.csv", 1, 1⟩, ⟨"b.csv", 2, 2⟩]
      [("022025", [⟨"c.csv", 3, 3⟩])] (by omega) (by decide)).1⟩

theorem mem_insertar_desc (a x : Fila × ℚ) (l : List (Fila × ℚ)) :
    a ∈ insertar_desc x l ↔ a = x ∨ a ∈ l := by
  induction l with
  | nil => simp [insertar_desc]
  | cons y ys ih =>
    rw [insertar_desc]
    by_cases h : y.2 < x.2
    · rw [if_pos h]
      simp [List.mem_cons]
    · rw [if_neg h]
      simp only [List.mem_cons, ih]
      tauto

theorem mem_sort_values_desc (a : Fila × ℚ) (l : List (Fila × ℚ)) :
    a ∈ sort_values_desc l ↔ a ∈ l := by
  induction l with
  | nil => simp [sort_values_desc]
  | cons x xs ih =>
    rw [sort_values_desc, mem_insertar_desc]
    simp [List.mem_cons, ih]

theorem sort_values_desc_nil_iff (l : List (Fila × ℚ)) :
    sort_values_desc l = [] ↔ l = [] := by
  constructor
  · intro h
    cases l with
    | nil => rfl
    | cons x xs =>
      exfalso
      have hx : x ∈ sort_values_desc (x :: xs) :=
        (mem_sort_values_desc x (x :: xs)).mpr (List.mem_cons_self x xs)
      rw [h] at hx
      exact List.not_mem_nil x hx
  · intro h
    rw [h]
    rfl

theorem cabeza_sort_max (l : List (Fila × ℚ)) (p : Fila × ℚ) (resto : List (Fila × ℚ))
    (h : sort_values_desc l = p :: resto) : ∀ q ∈ l, q.2 ≤ p.2 := by
  induction l generalizing p resto with
  | nil => simp [sort_values_desc] at h
  | cons x xs ih =>
    rw [sort_values_desc] at h
    cases hs : sort_values_desc xs with
    | nil =>
      have hxs : xs = [] := (sort_values_desc_nil_iff xs).mp hs
      rw [hs, insertar_desc] at h
      injection h with hp hr
      subst hp
      intro q hq
      rcases List.mem_cons.mp hq with h1 | h2
      · rw [h1]
      · rw [hxs] at h2
        exact absurd h2 (List.not_mem_nil q)
    | cons y ys =>
      have hmax := ih y ys hs
      rw [hs, insertar_desc] at h
      by_cases hc : y.2 < x.2
      · rw [if_pos hc] at h
        injection h with hp hr
        subst hp
        intro q hq
        rcases List.mem_cons.mp hq with h1 | h2
        · rw [h1]
        · exact le_of_lt (lt_of_le_of_lt (hmax q h2) hc)
      · rw [if_neg hc] at h
        injection h with hp hr
        subst hp
        intro q hq
        rcases List.mem_cons.mp hq with h1 | h2
        · rw [h1]
          exact not_lt.mp hc
        · exact hmax q h2

/-- C6: the lookup takes an exact name match when one exists, choosing the
last recorded one, whatever the similarity scores are; with no exact match
a candidate is returned exactly when the top similarity reaches 0.8: any
returned candidate scores at least 0.8 and no candidate scores higher,
some candidate is returned as soon as one scores at least 0.8, and nothing
is returned when every candidate scores below 0.8. -/
theorem coincidencia_exacta_gana (ratio : String → String → ℚ) (candidatos : List Fila)
    (nombre : String) :
    (∀ e es, candidatos.filter (fun r => r.nombre == nombre) = e :: es →
      buscar_fila_mes_ant ratio candidatos nombre =
        some ((e :: es).getLast (List.cons_ne_nil e es))) ∧
    (candidatos.filter (fun r => r.nombre == nombre) = [] →
      ∀ f, buscar_fila_mes_ant ratio candidatos nombre = some f →
        f ∈ candidatos ∧ (4 : ℚ) / 5 ≤ calcular_similitud ratio f.nombre nombre ∧
        ∀ c ∈ candidatos,
          calcular_similitud ratio c.nombre nombre ≤
            calcular_similitud ratio f.nombre nombre) ∧
    (candidatos.filter (fun r => r.nombre == nombre) = [] →
      (∀ c ∈ candidatos, calcular_similitud ratio c.nombre nombre < 4 / 5) →
      buscar_fila_mes_ant ratio candidatos nombre = none) ∧
    (candidatos.filter (fun r => r.nombre == nombre) = [] →
      ∀ c ∈ candidatos, (4 : ℚ) / 5 ≤ calcular_similitud ratio c.nombre nombre →
        ∃ f, buscar_fila_mes_ant ratio candidatos nombre = some f) := by
  refine ⟨?_, ?_, ?_, ?_⟩
  · intro e es hf
    rw [buscar_fila_mes_ant, hf]
  · intro hf f hres
    rw [buscar_fila_mes_ant, hf] at hres
    replace hres : mejor_similar ratio candidatos nombre = some f := hres
    rw [mejor_similar] at hres
    cases hs : sort_values_desc (candidatos.map
        (fun r => (r, calcular_similitud ratio r.nombre nombre))) with
    | nil =>
      rw [hs] at hres
      exact absurd hres (by simp)
    | cons p resto =>
      rw [hs] at hres
      replace hres : (if (4 : ℚ) / 5 ≤ p.2 then some p.1 else none) = some f := hres
      by_cases hge : (4 : ℚ) / 5 ≤ p.2
      · rw [if_pos hge] at hres
        have hpmem : p ∈ candidatos.map
            (fun r => (r, calcular_similitud ratio r.nombre nombre)) :=
          (mem_sort_values_desc p _).mp (by rw [hs]; exact List.mem_cons_self p resto)
        obtain ⟨r0, hr0mem, hr0eq⟩ := List.mem_map.mp hpmem
        subst hr0eq
        have hpf : r0 = f := Option.some.inj hres
        subst hpf
        refine ⟨hr0mem, hge, ?_⟩
        intro c hc
        exact cabeza_sort_max _ _ _ hs (c, calcular_similitud ratio c.nombre nombre)
          (List.mem_map.mpr ⟨c, hc, rfl⟩)
      · rw [if_neg hge] at hres
        exact absurd hres (by simp)
  · intro hf hall
    rw [buscar_fila_mes_ant, hf]
    show mejor_similar ratio candidatos nombre = none
    rw [mejor_similar]
    cases hs : sort_values_desc (candidatos.map
        (fun r => (r, calcular_similitud ratio r.nombre nombre))) with
    | nil => rfl
    | cons p resto =>
      have hpmem : p ∈ candidatos.map
          (fun r => (r, calcular_similitud ratio r.nombre nombre)) :=
        (mem_sort_values_desc p _).mp (by rw [hs]; exact List.mem_cons_self p resto)
      obtain ⟨r0, hr0mem, hr0eq⟩ := List.mem_map.mp hpmem
      subst hr0eq
      show (if (4 : ℚ) / 5 ≤ calcular_similitud ratio r0.nombre nombre then some r0 else none)
        = none
      rw [if_neg (not_le.mpr (hall r0 hr0mem))]
  · intro hf c hc hge
    rw [buscar_fila_mes_ant, hf]
    show ∃ f, mejor_similar ratio candidatos nombre = some f
    rw [mejor_similar]
    cases hs : sort_values_desc (candidatos.map
        (fun r => (r, calcular_similitud ratio r.nombre nombre))) with
    | nil =>
      exfalso
      have hmap : candidatos.map (fun r => (r, calcular_similitud ratio r.nombre nombre))
          = [] := (sort_values_desc_nil_iff _).mp hs
      have hcm : (c, calcular_similitud ratio c.nombre nombre) ∈ candidatos.map
          (fun r => (r, calcular_similitud ratio r.nombre nombre)) :=
        List.mem_map.mpr ⟨c, hc, rfl⟩
      rw [hmap] at hcm
      exact List.not_mem_nil _ hcm
    | cons p resto =>
      refine ⟨p.1, ?_⟩
      show (if (4 : ℚ) / 5 ≤ p.2 then some p.1 else none) = some p.1
      have hle : calcular_similitud ratio c.nombre nombre ≤ p.2 :=
        cabeza_sort_max _ _ _ hs (c, calcular_similitud ratio c.nombre nombre)
          (List.mem_map.mpr ⟨c, hc, rfl⟩)
      rw [if_pos (le_trans hge hle)]

/-- Witness for C6: an exact duplicate pair beaten into last-wins despite a
high-scoring competitor, a fuzzy acceptance of a non-exact candidate
scoring 0.9, and a pool whose best score sits below 0.8. -/
theorem coincidencia_exacta_gana_testigo :
    buscar_fila_mes_ant razon_ejemplo
        [⟨"ventas.csv", 5, 7⟩, ⟨"ventas.csv", 6, 8⟩, ⟨"informe.csv", 3, 4⟩] "ventas.csv" =
      some ⟨"ventas.csv", 6, 8⟩ ∧
    buscar_fila_mes_ant razon_ejemplo [⟨"informe.csv", 3, 4⟩] "ventas.csv" =
      some ⟨"informe.csv", 3, 4⟩ ∧
    buscar_fila_mes_ant razon_baja [⟨"otro.csv", 1, 1⟩] "ventas.csv" = none := by
  refine ⟨?_, ?_, ?_⟩
  · have h := (coincidencia_exacta_gana razon_ejemplo
      [⟨"ventas.csv", 5, 7⟩, ⟨"ventas.csv", 6, 8⟩, ⟨"informe.csv", 3, 4⟩] "ventas.csv").1
      ⟨"ventas.csv", 5, 7⟩ [⟨"ventas.csv", 6, 8⟩] (by decide)
    exact h.trans (by decide)
  · have hsc : (4 : ℚ) / 5 ≤ calcular_similitud razon_ejemplo "informe.csv" "ventas.csv" := by
      have hb : (minusculas "informe.csv" == minusculas "ventas.csv") = false := by decide
      rw [calcular_similitud, razon_ejemplo, hb]
      norm_num
    obtain ⟨f, hf⟩ := (coincidencia_exacta_gana razon_ejemplo
      [⟨"informe.csv", 3, 4⟩] "ventas.csv").2.2.2 (by decide)
      ⟨"informe.csv", 3, 4⟩ (by decide) hsc
    have hprop := (coincidencia_exacta_gana razon_ejemplo
      [⟨"informe.csv", 3, 4⟩] "ventas.csv").2.1 (by decide) f hf
    have hfeq : f = ⟨"informe.csv", 3, 4⟩ := by
      have hm := hprop.1
      simpa using hm
    rw [hfeq] at hf
    exact hf
  · refine (coincidencia_exacta_gana razon_baja [⟨"otro.csv", 1, 1⟩] "ventas.csv").2.2.1
      (by decide) ?_
    intro c hc
    simp only [calcular_similitud, razon_baja]
    norm_num
